import Mathlib

/-!
Verification of the CRUDSecurity record store (src/main.py).

The Python program keeps a single `SecurityController` holding the current
session user and the in-memory list of employee records.  We embed that state
as `Ctrl` and each method as a pure function on it.  Persistence
(`save_employees` / `load_employees`) is whole-collection serialization, so it
is modelled as mapping `to_dict` / `from_dict` over the list; exceptions
(`PermissionError`, `ValueError "... not found"`, `ValueError` on a bad status)
are modelled by the error type `Err`, distinguished the way the spec names
them.
-/

/-- Error outcomes of the facade operations.  `authorizationError` embeds
Python's `PermissionError`, `notFoundError` the `ValueError("Employee not
found")`, and `invalidStateError` the `ValueError` raised on an approval
attempted out of sequence. -/
inductive Err where
  | authorizationError
  | notFoundError
  | invalidStateError
deriving DecidableEq

/-- A user identity (Python class `User`; the `Admin` subclass only fixes
`role = "admin"`, so one structure with a role field covers both). -/
structure Identity where
  username : String
  password : String
  role : String
deriving DecidableEq

/-- An employee record (Python class `Employee`). -/
structure Employee where
  id : String
  name : String
  position : String
  department : String
  status : String
  manager_approver : Option String
  admin_approver : Option String
deriving DecidableEq

/-- `Employee.__init__`: a fresh record is `pending` with no approvers. -/
def Employee.init (id name position department : String) : Employee :=
  { id := id, name := name, position := position, department := department,
    status := "pending", manager_approver := none, admin_approver := none }

/-- The JSON dictionary produced by `Employee.to_dict` / consumed by
`Employee.from_dict`.  `status := none` models a dictionary with no
`status` key (then `from_dict` defaults it to `"pending"`); for the two
approver fields a missing key and an explicit JSON `null` are both read back
as `None` by `dict.get`, so one `Option String` covers both. -/
structure EmployeeDict where
  id : String
  name : String
  position : String
  department : String
  status : Option String
  manager_approver : Option String
  admin_approver : Option String
deriving DecidableEq

/-- `Employee.to_dict`. -/
def Employee.to_dict (e : Employee) : EmployeeDict :=
  { id := e.id, name := e.name, position := e.position,
    department := e.department, status := some e.status,
    manager_approver := e.manager_approver, admin_approver := e.admin_approver }

/-- `Employee.from_dict` (uses `data.get('status', 'pending')` and
`data.get(...)` for the approvers). -/
def Employee.from_dict (d : EmployeeDict) : Employee :=
  { id := d.id, name := d.name, position := d.position,
    department := d.department, status := d.status.getD "pending",
    manager_approver := d.manager_approver, admin_approver := d.admin_approver }

/-- The serialized form written by `SecurityController.save_employees`. -/
def save_employees (emps : List Employee) : List EmployeeDict :=
  emps.map Employee.to_dict

/-- `SecurityController.load_employees` applied to stored data. -/
def load_employees (data : List EmployeeDict) : List Employee :=
  data.map Employee.from_dict

/-- A credential entry as found in `data/users.json`. -/
structure UserData where
  username : String
  password : String
  role : String
deriving DecidableEq

/-- The mutable state of a `SecurityController`: the session user and the
record collection. -/
structure Ctrl where
  current_user : Option Identity
  employees : List Employee
deriving DecidableEq

/-- `SecurityController.authenticate`: scan the credential list in order; on
the first exact username/password match set `current_user` (an `Admin` when
the entry's role is `admin`, a plain `User` otherwise — either way the
identity carries the entry's role) and return `True`; otherwise return
`False` leaving `current_user` untouched. -/
def authenticate (current_user : Option Identity) (users : List UserData)
    (username password : String) : Bool × Option Identity :=
  match users with
  | [] => (false, current_user)
  | ud :: rest =>
    if ud.username == username && ud.password == password then
      (true, some { username := username, password := password, role := ud.role })
    else
      authenticate current_user rest username password

/-- `SecurityController.has_permission`. -/
def has_permission (user : Option Identity) (action : String)
    (target_employee : Option Employee) : Bool :=
  match user with
  | none => false
  | some u =>
    if action == "create" then
      u.role == "admin"
    else if action == "read" then
      u.role == "admin" || u.role == "employee" || u.role == "manager"
    else if action == "update" then
      if u.role == "admin" then true
      else
        match target_employee with
        | some t => u.role == "employee" && t.id == u.username
        | none => false
    else if action == "delete" then
      u.role == "admin"
    else
      false

/-- `SecurityController.read_employees`. -/
def read_employees (c : Ctrl) : Except Err (List Employee) :=
  if has_permission c.current_user "read" none then
    .ok c.employees
  else
    .error .authorizationError

/-- `SecurityController.read_employee`: linear scan for the first record with
the given id; absence yields `none`, not an error. -/
def read_employee (c : Ctrl) (employee_id : String) :
    Except Err (Option Employee) :=
  if has_permission c.current_user "read" none then
    .ok (c.employees.find? (fun e => e.id == employee_id))
  else
    .error .authorizationError

/-- `SecurityController.create_employee`. -/
def create_employee (c : Ctrl) (name position department : String) :
    Except Err (Ctrl × Employee) :=
  if has_permission c.current_user "create" none then
    let new_id := toString (c.employees.length + 1)
    let new_employee := Employee.init new_id name position department
    .ok ({ c with employees := c.employees ++ [new_employee] }, new_employee)
  else
    .error .authorizationError

/-- The in-place field updates of `update_employee`: provided (`some`) fields
overwrite, absent (`none`) fields are kept. -/
def applyUpdate (e : Employee) (name position department : Option String) :
    Employee :=
  let e1 := match name with
    | some n => { e with name := n }
    | none => e
  let e2 := match position with
    | some p => { e1 with position := p }
    | none => e1
  match department with
  | some d => { e2 with department := d }
  | none => e2

/-- Python mutates the record object returned by `read_employee` in place;
since that object is the first list element with the matching id, the list
after mutation is the original with `f` applied to its first match. -/
def updateFirst (emps : List Employee) (employee_id : String)
    (f : Employee → Employee) : List Employee :=
  match emps with
  | [] => []
  | e :: rest =>
    if e.id == employee_id then f e :: rest
    else e :: updateFirst rest employee_id f

/-- `list.remove` on the object found by id removes the first matching
element. -/
def removeFirst (emps : List Employee) (employee_id : String) : List Employee :=
  match emps with
  | [] => []
  | e :: rest =>
    if e.id == employee_id then rest
    else e :: removeFirst rest employee_id

/-- `SecurityController.update_employee`.  Note: the leading permission check
calls `has_permission('update')` with no target record, exactly as the Python
does on line 190. -/
def update_employee (c : Ctrl) (employee_id : String)
    (name position department : Option String) : Except Err (Ctrl × Employee) :=
  if has_permission c.current_user "update" none then
    match read_employee c employee_id with
    | .error err => .error err
    | .ok none => .error .notFoundError
    | .ok (some employee) =>
      match c.current_user with
      | none => .error .authorizationError
      | some u =>
        if u.role == "employee" && employee_id != u.username then
          .error .authorizationError
        else
          let emps := updateFirst c.employees employee_id
            (fun e => applyUpdate e name position department)
          .ok ({ c with employees := emps },
               applyUpdate employee name position department)
  else
    .error .authorizationError

/-- `SecurityController.delete_employee`. -/
def delete_employee (c : Ctrl) (employee_id : String) :
    Except Err (Ctrl × Bool) :=
  if has_permission c.current_user "delete" none then
    match read_employee c employee_id with
    | .error err => .error err
    | .ok none => .error .notFoundError
    | .ok (some _) =>
      .ok ({ c with employees := removeFirst c.employees employee_id }, true)
  else
    .error .authorizationError

/-- The record mutation done by `approve_employee_by_manager` on its target. -/
def managerApprove (username : String) (e : Employee) : Employee :=
  { e with status := "manager_approved", manager_approver := some username }

/-- The record mutation done by `approve_employee_by_admin` on its target. -/
def adminApprove (username : String) (e : Employee) : Employee :=
  { e with status := "approved", admin_approver := some username }

/-- `SecurityController.approve_employee_by_manager`. -/
def approve_employee_by_manager (c : Ctrl) (employee_id : String) :
    Except Err (Ctrl × Employee) :=
  match c.current_user with
  | none => .error .authorizationError
  | some u =>
    if u.role != "manager" then .error .authorizationError
    else
      match read_employee c employee_id with
      | .error err => .error err
      | .ok none => .error .notFoundError
      | .ok (some employee) =>
        if employee.status != "pending" then .error .invalidStateError
        else
          let emps := updateFirst c.employees employee_id (managerApprove u.username)
          .ok ({ c with employees := emps }, managerApprove u.username employee)

/-- `SecurityController.approve_employee_by_admin`. -/
def approve_employee_by_admin (c : Ctrl) (employee_id : String) :
    Except Err (Ctrl × Employee) :=
  match c.current_user with
  | none => .error .authorizationError
  | some u =>
    if u.role != "admin" then .error .authorizationError
    else
      match read_employee c employee_id with
      | .error err => .error err
      | .ok none => .error .notFoundError
      | .ok (some employee) =>
        if employee.status != "manager_approved" then .error .invalidStateError
        else
          let emps := updateFirst c.employees employee_id (adminApprove u.username)
          .ok ({ c with employees := emps }, adminApprove u.username employee)

/-! ## Helper lemmas -/

theorem from_dict_to_dict (e : Employee) :
    Employee.from_dict (Employee.to_dict e) = e := by
  cases e; rfl

theorem has_permission_none (action : String) (t : Option Employee) :
    has_permission none action t = false := rfl

theorem has_permission_update_no_target (u : Identity)
    (h : u.role ≠ "admin") : has_permission (some u) "update" none = false := by
  simp [has_permission, h]

theorem has_permission_create_non_admin (u : Identity) (h : u.role ≠ "admin")
    (t : Option Employee) : has_permission (some u) "create" t = false := by
  simp [has_permission, h]

theorem has_permission_delete_non_admin (u : Identity) (h : u.role ≠ "admin")
    (t : Option Employee) : has_permission (some u) "delete" t = false := by
  simp [has_permission, h]

/-! ## Claim theorems -/

/-- C9: serializing a record collection and deserializing it reproduces an
equivalent collection: `from_dict (to_dict e) = e` for every record, hence
`load_employees` after `save_employees` reproduces the stored collection
element for element in order. -/
theorem C9_serialization_roundtrip :
    (∀ e : Employee, Employee.from_dict (Employee.to_dict e) = e) ∧
    (∀ emps : List Employee, load_employees (save_employees emps) = emps) := by
  refine ⟨from_dict_to_dict, fun emps => ?_⟩
  induction emps with
  | nil => rfl
  | cons e rest ih =>
    simp only [load_employees, save_employees, List.map_cons] at ih ⊢
    rw [from_dict_to_dict, ih]

/-- C1 (evaluation of the defect): for every session whose identity has role
`employee`, `update_employee` fails with `AuthorizationError` on every input —
including a record whose id equals the caller's username — because the leading
permission check passes no target record to `has_permission`. -/
theorem C1_employee_update_always_denied (c : Ctrl) (u : Identity)
    (hu : c.current_user = some u) (hrole : u.role = "employee")
    (employee_id : String) (name position department : Option String) :
    update_employee c employee_id name position department =
      .error .authorizationError := by
  have hperm : has_permission c.current_user "update" none = false := by
    rw [hu]
    exact has_permission_update_no_target u (by rw [hrole]; decide)
  simp [update_employee, hperm]

theorem C1_employee_update_always_denied_witness :
    update_employee
        (Ctrl.mk (some (Identity.mk "1" "pw" "employee"))
          [Employee.init "1" "Alice" "Dev" "IT"])
        "1" (some "Bob") none none = .error .authorizationError :=
  C1_employee_update_always_denied
    (Ctrl.mk (some (Identity.mk "1" "pw" "employee"))
      [Employee.init "1" "Alice" "Dev" "IT"])
    (Identity.mk "1" "pw" "employee") rfl rfl "1" (some "Bob") none none

/-- C5: with create permission, `create_employee` appends a record whose id is
the string form of the prior collection size plus one, with status `pending`
and both approvers unset, and returns that record; on an empty store the id is
`"1"`. -/
theorem C5_create_employee (c : Ctrl) (name position department : String)
    (h : has_permission c.current_user "create" none = true) :
    create_employee c name position department =
      .ok ({ c with employees := c.employees ++
              [⟨toString (c.employees.length + 1), name, position, department,
                "pending", none, none⟩] },
           ⟨toString (c.employees.length + 1), name, position, department,
            "pending", none, none⟩) ∧
    (c.employees = [] → toString (c.employees.length + 1) = "1") := by
  constructor
  · simp [create_employee, h, Employee.init]
  · intro he
    rw [he]
    rfl

theorem C5_create_employee_witness :
    create_employee (Ctrl.mk (some (Identity.mk "admin" "admin123" "admin")) [])
        "Alice" "Dev" "IT" =
      .ok (Ctrl.mk (some (Identity.mk "admin" "admin123" "admin"))
             [⟨"1", "Alice", "Dev", "IT", "pending", none, none⟩],
           ⟨"1", "Alice", "Dev", "IT", "pending", none, none⟩) ∧
    toString (List.length ([] : List Employee) + 1) = "1" := by
  have h := C5_create_employee
    (Ctrl.mk (some (Identity.mk "admin" "admin123" "admin")) [])
    "Alice" "Dev" "IT" (by decide)
  exact ⟨h.1, h.2 rfl⟩

/-- C7: when no identity is set, or the identity's role is not `admin`,
`has_permission` denies `create` and `delete`, and `create_employee` and
`delete_employee` fail with `AuthorizationError`. -/
theorem C7_create_delete_require_admin (c : Ctrl)
    (h : ∀ u, c.current_user = some u → u.role ≠ "admin") :
    (∀ t, has_permission c.current_user "create" t = false) ∧
    (∀ t, has_permission c.current_user "delete" t = false) ∧
    (∀ name position department,
      create_employee c name position department = .error .authorizationError) ∧
    (∀ employee_id,
      delete_employee c employee_id = .error .authorizationError) := by
  have hc : ∀ t, has_permission c.current_user "create" t = false := by
    intro t
    cases hcu : c.current_user with
    | none => rfl
    | some u => exact has_permission_create_non_admin u (h u hcu) t
  have hd : ∀ t, has_permission c.current_user "delete" t = false := by
    intro t
    cases hcu : c.current_user with
    | none => rfl
    | some u => exact has_permission_delete_non_admin u (h u hcu) t
  refine ⟨hc, hd, fun name position department => ?_, fun employee_id => ?_⟩
  · simp [create_employee, hc none]
  · simp [delete_employee, hd none]

theorem C7_create_delete_require_admin_witness :
    has_permission (some (Identity.mk "manager" "manager123" "manager"))
      "create" none = false ∧
    has_permission (some (Identity.mk "manager" "manager123" "manager"))
      "delete" none = false ∧
    create_employee
      (Ctrl.mk (some (Identity.mk "manager" "manager123" "manager")) [])
      "Alice" "Dev" "IT" = .error .authorizationError ∧
    delete_employee
      (Ctrl.mk (some (Identity.mk "manager" "manager123" "manager")) [])
      "1" = .error .authorizationError := by
  have h := C7_create_delete_require_admin
    (Ctrl.mk (some (Identity.mk "manager" "manager123" "manager")) [])
    (fun u hu => by cases hu; decide)
  exact ⟨h.1 none, h.2.1 none, h.2.2.1 "Alice" "Dev" "IT", h.2.2.2 "1"⟩

theorem find?_decomp {emps : List Employee} {employee_id : String}
    {emp : Employee}
    (h : emps.find? (fun e => e.id == employee_id) = some emp) :
    ∃ pre post, emps = pre ++ emp :: post ∧
      (∀ x ∈ pre, (x.id == employee_id) = false) ∧
      (emp.id == employee_id) = true := by
  induction emps with
  | nil => simp at h
  | cons a rest ih =>
    cases ha : (a.id == employee_id) with
    | true =>
      obtain rfl : a = emp := by simpa [List.find?, ha] using h
      exact ⟨[], rest, rfl, by simp, ha⟩
    | false =>
      have h' : rest.find? (fun e => e.id == employee_id) = some emp := by
        simpa [List.find?, ha] using h
      obtain ⟨pre, post, heq, hpre, hemp⟩ := ih h'
      refine ⟨a :: pre, post, by rw [heq]; rfl, ?_, hemp⟩
      intro x hx
      rcases List.mem_cons.mp hx with rfl | hx
      · exact ha
      · exact hpre x hx

theorem updateFirst_append {pre post : List Employee} {employee_id : String}
    {emp : Employee} (f : Employee → Employee)
    (hpre : ∀ x ∈ pre, (x.id == employee_id) = false)
    (hemp : (emp.id == employee_id) = true) :
    updateFirst (pre ++ emp :: post) employee_id f = pre ++ f emp :: post := by
  induction pre with
  | nil => simp [updateFirst, hemp]
  | cons a rest ih =>
    have ha := hpre a (List.mem_cons_self a rest)
    simp only [List.cons_append, updateFirst, ha, Bool.false_eq_true, if_false]
    exact congrArg (a :: ·) (ih (fun x hx => hpre x (List.mem_cons_of_mem a hx)))

theorem removeFirst_append {pre post : List Employee} {employee_id : String}
    {emp : Employee}
    (hpre : ∀ x ∈ pre, (x.id == employee_id) = false)
    (hemp : (emp.id == employee_id) = true) :
    removeFirst (pre ++ emp :: post) employee_id = pre ++ post := by
  induction pre with
  | nil => simp [removeFirst, hemp]
  | cons a rest ih =>
    have ha := hpre a (List.mem_cons_self a rest)
    simp only [List.cons_append, removeFirst, ha, Bool.false_eq_true, if_false]
    exact congrArg (a :: ·) (ih (fun x hx => hpre x (List.mem_cons_of_mem a hx)))

theorem applyUpdate_frame (e : Employee) (name position department : Option String) :
    (applyUpdate e name position department).id = e.id ∧
    (applyUpdate e name position department).status = e.status ∧
    (applyUpdate e name position department).manager_approver = e.manager_approver ∧
    (applyUpdate e name position department).admin_approver = e.admin_approver ∧
    (applyUpdate e name position department).name = name.getD e.name ∧
    (applyUpdate e name position department).position = position.getD e.position ∧
    (applyUpdate e name position department).department = department.getD e.department := by
  cases name <;> cases position <;> cases department <;>
    exact ⟨rfl, rfl, rfl, rfl, rfl, rfl, rfl⟩

theorem find?_append_first {pre post : List Employee} {employee_id : String}
    {emp : Employee}
    (hpre : ∀ x ∈ pre, (x.id == employee_id) = false)
    (hemp : (emp.id == employee_id) = true) :
    (pre ++ emp :: post).find? (fun e => e.id == employee_id) = some emp := by
  induction pre with
  | nil => simp [List.find?, hemp]
  | cons a rest ih =>
    have ha := hpre a (List.mem_cons_self a rest)
    simp only [List.cons_append, List.find?, ha]
    exact ih (fun x hx => hpre x (List.mem_cons_of_mem a hx))

/-- Concrete fixtures used by the witnesses, mirroring the defaults of
`data/users.json` and the records of the demo driver. -/
def adminUser : Identity := ⟨"admin", "admin123", "admin"⟩

def managerUser : Identity := ⟨"manager", "manager123", "manager"⟩

def johnPending : Employee := ⟨"1", "John Doe", "Developer", "IT", "pending", none, none⟩

def johnManagerApproved : Employee :=
  ⟨"1", "John Doe", "Developer", "IT", "manager_approved", some "manager", none⟩

/-- C2: `approve_employee_by_manager` fails with `AuthorizationError` unless
the caller's role is `manager` (including when no identity is set); for a
manager caller it fails with `NotFoundError` when no record matches the id,
fails with `InvalidStateError` when the matching record's status is not
`pending`, and otherwise replaces that record by one with status
`manager_approved` and `manager_approver` set to the caller's username,
returning that record. -/
theorem C2_approve_by_manager_spec (c : Ctrl) (employee_id : String)
    (u : Identity) (emp : Employee) :
    ((∀ v, c.current_user = some v → v.role ≠ "manager") →
      approve_employee_by_manager c employee_id = .error .authorizationError) ∧
    (c.current_user = some u → u.role = "manager" →
      c.employees.find? (fun e => e.id == employee_id) = none →
      approve_employee_by_manager c employee_id = .error .notFoundError) ∧
    (c.current_user = some u → u.role = "manager" →
      c.employees.find? (fun e => e.id == employee_id) = some emp →
      emp.status ≠ "pending" →
      approve_employee_by_manager c employee_id = .error .invalidStateError) ∧
    (c.current_user = some u → u.role = "manager" →
      c.employees.find? (fun e => e.id == employee_id) = some emp →
      emp.status = "pending" →
      approve_employee_by_manager c employee_id =
        .ok ({ c with employees :=
                updateFirst c.employees employee_id (managerApprove u.username) },
             managerApprove u.username emp) ∧
      (managerApprove u.username emp).status = "manager_approved" ∧
      (managerApprove u.username emp).manager_approver = some u.username) := by
  refine ⟨fun hall => ?_, fun hu hrole hfind => ?_,
    fun hu hrole hfind hst => ?_, fun hu hrole hfind hst => ?_⟩
  · cases hcu : c.current_user with
    | none => simp [approve_employee_by_manager, hcu]
    | some v =>
      have hv : v.role ≠ "manager" := hall v hcu
      simp [approve_employee_by_manager, hcu, bne_iff_ne, hv]
  · simp [approve_employee_by_manager, read_employee, has_permission,
      hu, hrole, hfind]
  · have hst' : (emp.status != "pending") = true := bne_iff_ne.mpr hst
    simp [approve_employee_by_manager, read_employee, has_permission,
      hu, hrole, hfind, hst']
  · refine ⟨?_, by simp [managerApprove], by simp [managerApprove]⟩
    simp [approve_employee_by_manager, read_employee, has_permission,
      hu, hrole, hfind, hst]

theorem C2_approve_by_manager_witness :
    approve_employee_by_manager (Ctrl.mk (some adminUser) [johnPending]) "1" =
      .error .authorizationError ∧
    approve_employee_by_manager (Ctrl.mk (some managerUser) [johnPending]) "9" =
      .error .notFoundError ∧
    approve_employee_by_manager
        (Ctrl.mk (some managerUser) [johnManagerApproved]) "1" =
      .error .invalidStateError ∧
    approve_employee_by_manager (Ctrl.mk (some managerUser) [johnPending]) "1" =
      .ok (Ctrl.mk (some managerUser)
             (updateFirst [johnPending] "1" (managerApprove "manager")),
           managerApprove "manager" johnPending) := by
  refine ⟨?_, ?_, ?_, ?_⟩
  · exact (C2_approve_by_manager_spec (Ctrl.mk (some adminUser) [johnPending])
      "1" adminUser johnPending).1 (fun v hv => by cases hv; decide)
  · exact (C2_approve_by_manager_spec (Ctrl.mk (some managerUser) [johnPending])
      "9" managerUser johnPending).2.1 rfl rfl (by decide)
  · exact (C2_approve_by_manager_spec
      (Ctrl.mk (some managerUser) [johnManagerApproved]) "1" managerUser
      johnManagerApproved).2.2.1 rfl rfl (by decide) (by decide)
  · exact ((C2_approve_by_manager_spec (Ctrl.mk (some managerUser) [johnPending])
      "1" managerUser johnPending).2.2.2 rfl rfl (by decide) rfl).1

/-- C3: `approve_employee_by_admin` fails with `AuthorizationError` unless the
caller's role is `admin`; for an admin caller it fails with `NotFoundError`
when no record matches the id, fails with `InvalidStateError` when the
matching record's status is not `manager_approved` (in particular when it is
`pending`), and otherwise replaces that record by one with status `approved`
and `admin_approver` set to the caller's username, returning that record. -/
theorem C3_approve_by_admin_spec (c : Ctrl) (employee_id : String)
    (u : Identity) (emp : Employee) :
    ((∀ v, c.current_user = some v → v.role ≠ "admin") →
      approve_employee_by_admin c employee_id = .error .authorizationError) ∧
    (c.current_user = some u → u.role = "admin" →
      c.employees.find? (fun e => e.id == employee_id) = none →
      approve_employee_by_admin c employee_id = .error .notFoundError) ∧
    (c.current_user = some u → u.role = "admin" →
      c.employees.find? (fun e => e.id == employee_id) = some emp →
      emp.status ≠ "manager_approved" →
      approve_employee_by_admin c employee_id = .error .invalidStateError) ∧
    (c.current_user = some u → u.role = "admin" →
      c.employees.find? (fun e => e.id == employee_id) = some emp →
      emp.status = "manager_approved" →
      approve_employee_by_admin c employee_id =
        .ok ({ c with employees :=
                updateFirst c.employees employee_id (adminApprove u.username) },
             adminApprove u.username emp) ∧
      (adminApprove u.username emp).status = "approved" ∧
      (adminApprove u.username emp).admin_approver = some u.username) := by
  refine ⟨fun hall => ?_, fun hu hrole hfind => ?_,
    fun hu hrole hfind hst => ?_, fun hu hrole hfind hst => ?_⟩
  · cases hcu : c.current_user with
    | none => simp [approve_employee_by_admin, hcu]
    | some v =>
      have hv : v.role ≠ "admin" := hall v hcu
      simp [approve_employee_by_admin, hcu, bne_iff_ne, hv]
  · simp [approve_employee_by_admin, read_employee, has_permission,
      hu, hrole, hfind]
  · have hst' : (emp.status != "manager_approved") = true := bne_iff_ne.mpr hst
    simp [approve_employee_by_admin, read_employee, has_permission,
      hu, hrole, hfind, hst']
  · refine ⟨?_, by simp [adminApprove], by simp [adminApprove]⟩
    simp [approve_employee_by_admin, read_employee, has_permission,
      hu, hrole, hfind, hst]

theorem C3_approve_by_admin_witness :
    approve_employee_by_admin (Ctrl.mk (some managerUser) [johnManagerApproved])
      "1" = .error .authorizationError ∧
    approve_employee_by_admin (Ctrl.mk (some adminUser) [johnManagerApproved])
      "9" = .error .notFoundError ∧
    approve_employee_by_admin (Ctrl.mk (some adminUser) [johnPending]) "1" =
      .error .invalidStateError ∧
    approve_employee_by_admin (Ctrl.mk (some adminUser) [johnManagerApproved])
      "1" =
      .ok (Ctrl.mk (some adminUser)
             (updateFirst [johnManagerApproved] "1" (adminApprove "admin")),
           adminApprove "admin" johnManagerApproved) := by
  refine ⟨?_, ?_, ?_, ?_⟩
  · exact (C3_approve_by_admin_spec
      (Ctrl.mk (some managerUser) [johnManagerApproved]) "1" managerUser
      johnManagerApproved).1 (fun v hv => by cases hv; decide)
  · exact (C3_approve_by_admin_spec
      (Ctrl.mk (some adminUser) [johnManagerApproved]) "9" adminUser
      johnManagerApproved).2.1 rfl rfl (by decide)
  · exact (C3_approve_by_admin_spec (Ctrl.mk (some adminUser) [johnPending])
      "1" adminUser johnPending).2.2.1 rfl rfl (by decide) (by decide)
  · exact ((C3_approve_by_admin_spec
      (Ctrl.mk (some adminUser) [johnManagerApproved]) "1" adminUser
      johnManagerApproved).2.2.2 rfl rfl (by decide) rfl).1

/-- C8: for an admin caller, `update_employee` fails with `NotFoundError`
when no record matches the id; otherwise, with the store split as
`pre ++ emp :: post` around the first record matching the id, it overwrites
exactly the provided fields of that record (absent fields, its id, status and
both approvers are kept) and leaves `pre` and `post` — every other record —
unchanged, returning the updated record. -/
theorem C8_admin_update_spec (c : Ctrl) (u : Identity) (employee_id : String)
    (name position department : Option String) (pre post : List Employee)
    (emp : Employee)
    (hu : c.current_user = some u) (hrole : u.role = "admin") :
    (c.employees.find? (fun e => e.id == employee_id) = none →
      update_employee c employee_id name position department =
        .error .notFoundError) ∧
    (c.employees = pre ++ emp :: post →
      (∀ x ∈ pre, (x.id == employee_id) = false) →
      (emp.id == employee_id) = true →
      update_employee c employee_id name position department =
        .ok (Ctrl.mk c.current_user
              (pre ++ applyUpdate emp name position department :: post),
             applyUpdate emp name position department) ∧
      (applyUpdate emp name position department).id = emp.id ∧
      (applyUpdate emp name position department).status = emp.status ∧
      (applyUpdate emp name position department).manager_approver =
        emp.manager_approver ∧
      (applyUpdate emp name position department).admin_approver =
        emp.admin_approver ∧
      (applyUpdate emp name position department).name = name.getD emp.name ∧
      (applyUpdate emp name position department).position =
        position.getD emp.position ∧
      (applyUpdate emp name position department).department =
        department.getD emp.department) := by
  constructor
  · intro hfind
    simp [update_employee, read_employee, has_permission, hu, hrole, hfind]
  · intro heq hpre hemp
    have hfind : c.employees.find? (fun e => e.id == employee_id) = some emp := by
      rw [heq]; exact find?_append_first hpre hemp
    have hupd : updateFirst c.employees employee_id
        (fun e => applyUpdate e name position department) =
        pre ++ applyUpdate emp name position department :: post := by
      rw [heq]; exact updateFirst_append _ hpre hemp
    obtain ⟨h1, h2, h3, h4, h5, h6, h7⟩ := applyUpdate_frame emp name position department
    refine ⟨?_, h1, h2, h3, h4, h5, h6, h7⟩
    simp [update_employee, read_employee, has_permission, hu, hrole, hfind, hupd]

theorem C8_admin_update_spec_witness :
    update_employee (Ctrl.mk (some adminUser) [johnPending]) "9"
      (some "Jane") none none = .error .notFoundError ∧
    update_employee
        (Ctrl.mk (some adminUser)
          [johnPending, ⟨"2", "Mary", "QA", "Sales", "pending", none, none⟩])
        "2" (some "Jane") none (some "IT") =
      .ok (Ctrl.mk (some adminUser)
            ([johnPending] ++
              applyUpdate ⟨"2", "Mary", "QA", "Sales", "pending", none, none⟩
                (some "Jane") none (some "IT") :: []),
           applyUpdate ⟨"2", "Mary", "QA", "Sales", "pending", none, none⟩
             (some "Jane") none (some "IT")) := by
  constructor
  · exact (C8_admin_update_spec (Ctrl.mk (some adminUser) [johnPending])
      adminUser "9" (some "Jane") none none [] [] johnPending rfl rfl).1
      (by decide)
  · exact ((C8_admin_update_spec
      (Ctrl.mk (some adminUser)
        [johnPending, ⟨"2", "Mary", "QA", "Sales", "pending", none, none⟩])
      adminUser "2" (some "Jane") none (some "IT") [johnPending] []
      ⟨"2", "Mary", "QA", "Sales", "pending", none, none⟩ rfl rfl).2
      rfl (by decide) (by decide)).1

/-- The default credential list that `load_users` bootstraps into
`data/users.json`. -/
def defaultUsers : List UserData :=
  [⟨"admin", "admin123", "admin"⟩,
   ⟨"employee", "employee123", "employee"⟩,
   ⟨"manager", "manager123", "manager"⟩]

/-- C10: `authenticate` returns `true` exactly when some credential entry
matches both username and password by string equality; on the first matching
entry it sets the session identity to that username and the entry's role;
when it returns `false` it leaves `current_user` unchanged, so a previously
authenticated identity survives a failed login attempt. -/
theorem C10_authenticate_spec (current_user : Option Identity)
    (users : List UserData) (username password : String) (ud : UserData) :
    (authenticate current_user users username password).1 =
      users.any (fun x => x.username == username && x.password == password) ∧
    ((authenticate current_user users username password).1 = false →
      (authenticate current_user users username password).2 = current_user) ∧
    (users.find? (fun x => x.username == username && x.password == password) =
        some ud →
      (authenticate current_user users username password).2 =
        some ⟨username, password, ud.role⟩) := by
  induction users with
  | nil =>
    exact ⟨rfl, fun _ => rfl, fun h => by simp at h⟩
  | cons v rest ih =>
    cases hv : (v.username == username && v.password == password) with
    | true =>
      refine ⟨?_, ?_, ?_⟩
      · simp [authenticate, hv]
      · intro h
        simp [authenticate, hv] at h
      · intro hfind
        obtain rfl : v = ud := by simpa [List.find?, hv] using hfind
        simp [authenticate, hv]
    | false =>
      refine ⟨?_, ?_, ?_⟩
      · simpa [authenticate, hv] using ih.1
      · intro h
        have h' : (authenticate current_user rest username password).1 = false := by
          simpa [authenticate, hv] using h
        simpa [authenticate, hv] using ih.2.1 h'
      · intro hfind
        have hfind' : rest.find?
            (fun x => x.username == username && x.password == password) =
            some ud := by
          simpa [List.find?, hv] using hfind
        simpa [authenticate, hv] using ih.2.2 hfind'

theorem C10_authenticate_spec_witness :
    (authenticate (some managerUser) defaultUsers "admin" "wrong").1 =
      defaultUsers.any (fun x => x.username == "admin" && x.password == "wrong") ∧
    (authenticate (some managerUser) defaultUsers "admin" "wrong").2 =
      some managerUser ∧
    (authenticate none defaultUsers "admin" "admin123").2 =
      some ⟨"admin", "admin123", "admin"⟩ := by
  have h := C10_authenticate_spec (some managerUser) defaultUsers
    "admin" "wrong" ⟨"admin", "admin123", "admin"⟩
  have h2 := C10_authenticate_spec none defaultUsers
    "admin" "admin123" ⟨"admin", "admin123", "admin"⟩
  exact ⟨h.1, h.2.1 (by decide), h2.2.2 (by decide)⟩

/-- C6: a permitted operation sequence after which `create_employee` hands out
an id already present: admin creates "1" and "2", deletes "1", and the next
create — sized off the shrunken collection — again produces id "2", which
collides with the surviving record "2". -/
theorem C6_id_collision :
    create_employee (Ctrl.mk (some adminUser) []) "Alice" "Dev" "IT" =
      .ok (Ctrl.mk (some adminUser)
             [⟨"1", "Alice", "Dev", "IT", "pending", none, none⟩],
           ⟨"1", "Alice", "Dev", "IT", "pending", none, none⟩) ∧
    create_employee
        (Ctrl.mk (some adminUser)
          [⟨"1", "Alice", "Dev", "IT", "pending", none, none⟩])
        "Bob" "QA" "IT" =
      .ok (Ctrl.mk (some adminUser)
             [⟨"1", "Alice", "Dev", "IT", "pending", none, none⟩,
              ⟨"2", "Bob", "QA", "IT", "pending", none, none⟩],
           ⟨"2", "Bob", "QA", "IT", "pending", none, none⟩) ∧
    delete_employee
        (Ctrl.mk (some adminUser)
          [⟨"1", "Alice", "Dev", "IT", "pending", none, none⟩,
           ⟨"2", "Bob", "QA", "IT", "pending", none, none⟩]) "1" =
      .ok (Ctrl.mk (some adminUser)
             [⟨"2", "Bob", "QA", "IT", "pending", none, none⟩], true) ∧
    create_employee
        (Ctrl.mk (some adminUser)
          [⟨"2", "Bob", "QA", "IT", "pending", none, none⟩])
        "Carol" "PM" "IT" =
      .ok (Ctrl.mk (some adminUser)
             [⟨"2", "Bob", "QA", "IT", "pending", none, none⟩,
              ⟨"2", "Carol", "PM", "IT", "pending", none, none⟩],
           ⟨"2", "Carol", "PM", "IT", "pending", none, none⟩) ∧
    ([⟨"2", "Bob", "QA", "IT", "pending", none, none⟩] : List Employee).any
      (fun x => x.id == "2") = true := by
  refine ⟨rfl, rfl, rfl, rfl, by decide⟩

/-- One call of the CRUD facade. -/
inductive Op where
  | create (name position department : String)
  | readAll
  | readOne (employee_id : String)
  | update (employee_id : String) (name position department : Option String)
  | delete (employee_id : String)
  | approveByManager (employee_id : String)
  | approveByAdmin (employee_id : String)

/-- The store state after a facade call; a raised error leaves the state
unchanged (every operation either fails before mutating, or mutates and then
saves). -/
def applyOp (c : Ctrl) (op : Op) : Ctrl :=
  match op with
  | .create name position department =>
    match create_employee c name position department with
    | .ok r => r.1
    | .error _ => c
  | .readAll => c
  | .readOne _ => c
  | .update employee_id name position department =>
    match update_employee c employee_id name position department with
    | .ok r => r.1
    | .error _ => c
  | .delete employee_id =>
    match delete_employee c employee_id with
    | .ok r => r.1
    | .error _ => c
  | .approveByManager employee_id =>
    match approve_employee_by_manager c employee_id with
    | .ok r => r.1
    | .error _ => c
  | .approveByAdmin employee_id =>
    match approve_employee_by_admin c employee_id with
    | .ok r => r.1
    | .error _ => c

/-- Approver/status consistency of one record: `admin_approver` set only at
status `approved`, `manager_approver` set only at `manager_approved` or
`approved`. -/
def recordInv (e : Employee) : Bool :=
  (e.admin_approver == none || e.status == "approved") &&
  (e.manager_approver == none || e.status == "manager_approved" ||
    e.status == "approved")

/-- The invariant over the whole store. -/
def storeInv (emps : List Employee) : Bool := emps.all recordInv

/-- A record's status either stays or takes a single forward step of the
approval chain pending → manager_approved → approved. -/
def stepOk (e e' : Employee) : Prop :=
  e'.status = e.status ∨
  (e.status = "pending" ∧ e'.status = "manager_approved") ∨
  (e.status = "manager_approved" ∧ e'.status = "approved")

/-- Store evolution in one facade call: each surviving record's status stays
or steps forward (never skipping a stage, never regressing), records may be
deleted, and newly created records enter with status `pending`. -/
inductive Evolves : List Employee → List Employee → Prop where
  | nil : Evolves [] []
  | keep {e e' : Employee} {l l' : List Employee} :
      stepOk e e' → Evolves l l' → Evolves (e :: l) (e' :: l')
  | del {e : Employee} {l l' : List Employee} :
      Evolves l l' → Evolves (e :: l) l'
  | fresh {e' : Employee} {l l' : List Employee} :
      e'.status = "pending" → Evolves l l' → Evolves l (e' :: l')

theorem stepOk_refl (e : Employee) : stepOk e e := Or.inl rfl

theorem evolves_refl (l : List Employee) : Evolves l l := by
  induction l with
  | nil => exact .nil
  | cons e rest ih => exact .keep (stepOk_refl e) ih

theorem evolves_snoc {e : Employee} (hst : e.status = "pending")
    (l : List Employee) : Evolves l (l ++ [e]) := by
  induction l with
  | nil => exact .fresh hst .nil
  | cons a rest ih => exact .keep (stepOk_refl a) ih

theorem evolves_middle {a b : Employee} (h : stepOk a b)
    (pre post : List Employee) :
    Evolves (pre ++ a :: post) (pre ++ b :: post) := by
  induction pre with
  | nil => exact .keep h (evolves_refl post)
  | cons x rest ih => exact .keep (stepOk_refl x) ih

theorem evolves_remove (a : Employee) (pre post : List Employee) :
    Evolves (pre ++ a :: post) (pre ++ post) := by
  induction pre with
  | nil => exact .del (evolves_refl post)
  | cons x rest ih => exact .keep (stepOk_refl x) ih

theorem storeInv_append {l₁ l₂ : List Employee} :
    storeInv (l₁ ++ l₂) = (storeInv l₁ && storeInv l₂) := by
  simp [storeInv]

theorem storeInv_middle {pre post : List Employee} {a b : Employee}
    (h : storeInv (pre ++ a :: post) = true) (hb : recordInv b = true) :
    storeInv (pre ++ b :: post) = true := by
  simp only [storeInv, List.all_append, List.all_cons, Bool.and_eq_true] at h ⊢
  exact ⟨h.1, hb, h.2.2⟩

theorem storeInv_remove {pre post : List Employee} {a : Employee}
    (h : storeInv (pre ++ a :: post) = true) :
    storeInv (pre ++ post) = true := by
  simp only [storeInv, List.all_append, List.all_cons, Bool.and_eq_true] at h ⊢
  exact ⟨h.1, h.2.2⟩

theorem recordInv_middle {pre post : List Employee} {a : Employee}
    (h : storeInv (pre ++ a :: post) = true) : recordInv a = true := by
  simp only [storeInv, List.all_append, List.all_cons, Bool.and_eq_true] at h
  exact h.2.1

theorem recordInv_init (id name position department : String) :
    recordInv (Employee.init id name position department) = true := rfl

theorem recordInv_applyUpdate {e : Employee} (hinv : recordInv e = true)
    (name position department : Option String) :
    recordInv (applyUpdate e name position department) = true := by
  obtain ⟨-, h2, h3, h4, -, -, -⟩ := applyUpdate_frame e name position department
  unfold recordInv at hinv ⊢
  rw [h2, h3, h4]
  exact hinv

theorem recordInv_managerApprove {e : Employee} (username : String)
    (hinv : recordInv e = true) (hst : e.status = "pending") :
    recordInv (managerApprove username e) = true := by
  have hadmin : e.admin_approver = none := by
    simp [recordInv, hst] at hinv
    exact hinv.1
  simp [recordInv, managerApprove, hadmin]

theorem recordInv_adminApprove (e : Employee) (username : String) :
    recordInv (adminApprove username e) = true := by
  simp [recordInv, adminApprove]

theorem has_permission_update_none_admin {user : Option Identity}
    (h : has_permission user "update" none = true) :
    ∃ u, user = some u ∧ u.role = "admin" := by
  cases user with
  | none => exact absurd h (by simp [has_permission])
  | some u =>
    refine ⟨u, rfl, ?_⟩
    by_cases hr : u.role = "admin"
    · exact hr
    · rw [has_permission_update_no_target u hr] at h
      cases h

theorem has_permission_delete_admin {user : Option Identity}
    (h : has_permission user "delete" none = true) :
    ∃ u, user = some u ∧ u.role = "admin" := by
  cases user with
  | none => exact absurd h (by simp [has_permission])
  | some u =>
    refine ⟨u, rfl, ?_⟩
    by_cases hr : u.role = "admin"
    · exact hr
    · rw [has_permission_delete_non_admin u hr none] at h
      cases h

/-- C4: every facade operation (create, read-all, read-one, update, delete,
approve-by-manager, approve-by-admin) keeps, for every record in the store,
the invariant that `admin_approver` is set only at status `approved` and
`manager_approver` only at `manager_approved` or `approved`, and the store
evolves so that each surviving record's status only advances along
pending → manager_approved → approved, never skipping a stage and never
moving backward. -/
theorem C4_facade_preserves_invariant (c : Ctrl) (op : Op)
    (hinv : storeInv c.employees = true) :
    storeInv (applyOp c op).employees = true ∧
    Evolves c.employees (applyOp c op).employees := by
  cases op with
  | readAll => exact ⟨hinv, evolves_refl _⟩
  | readOne employee_id => exact ⟨hinv, evolves_refl _⟩
  | create name position department =>
    cases hp : has_permission c.current_user "create" none with
    | false =>
      have heq : create_employee c name position department =
          .error .authorizationError := by
        simp [create_employee, hp]
      simp only [applyOp, heq]
      exact ⟨hinv, evolves_refl _⟩
    | true =>
      have heq : create_employee c name position department =
          .ok ({ c with employees := c.employees ++
                  [Employee.init (toString (c.employees.length + 1))
                    name position department] },
               Employee.init (toString (c.employees.length + 1))
                 name position department) := by
        simp [create_employee, hp]
      simp only [applyOp, heq]
      refine ⟨?_, ?_⟩
      · show storeInv (c.employees ++
          [Employee.init (toString (c.employees.length + 1))
            name position department]) = true
        rw [storeInv_append, hinv]
        rfl
      · exact evolves_snoc rfl c.employees
  | update employee_id name position department =>
    cases hp : has_permission c.current_user "update" none with
    | false =>
      have heq : update_employee c employee_id name position department =
          .error .authorizationError := by
        simp [update_employee, hp]
      simp only [applyOp, heq]
      exact ⟨hinv, evolves_refl _⟩
    | true =>
      obtain ⟨u, hu, hrole⟩ := has_permission_update_none_admin hp
      cases hfind : c.employees.find? (fun e => e.id == employee_id) with
      | none =>
        have heq : update_employee c employee_id name position department =
            .error .notFoundError := by
          simp [update_employee, read_employee, has_permission,
            hp, hu, hrole, hfind]
        simp only [applyOp, heq]
        exact ⟨hinv, evolves_refl _⟩
      | some emp =>
        obtain ⟨pre, post, heqL, hpre, hemp⟩ := find?_decomp hfind
        have hupd : updateFirst c.employees employee_id
            (fun e => applyUpdate e name position department) =
            pre ++ applyUpdate emp name position department :: post := by
          rw [heqL]; exact updateFirst_append _ hpre hemp
        have heq : update_employee c employee_id name position department =
            .ok (Ctrl.mk c.current_user (updateFirst c.employees employee_id
                   (fun e => applyUpdate e name position department)),
                 applyUpdate emp name position department) := by
          simp [update_employee, read_employee, has_permission,
            hp, hu, hrole, hfind]
        simp only [applyOp, heq]
        refine ⟨?_, ?_⟩
        · show storeInv (updateFirst c.employees employee_id
            (fun e => applyUpdate e name position department)) = true
          rw [hupd]
          exact storeInv_middle (heqL ▸ hinv)
            (recordInv_applyUpdate (recordInv_middle (heqL ▸ hinv))
              name position department)
        · show Evolves c.employees (updateFirst c.employees employee_id
            (fun e => applyUpdate e name position department))
          rw [hupd, heqL]
          exact evolves_middle
            (Or.inl (applyUpdate_frame emp name position department).2.1)
            pre post
  | delete employee_id =>
    cases hp : has_permission c.current_user "delete" none with
    | false =>
      have heq : delete_employee c employee_id = .error .authorizationError := by
        simp [delete_employee, hp]
      simp only [applyOp, heq]
      exact ⟨hinv, evolves_refl _⟩
    | true =>
      obtain ⟨u, hu, hrole⟩ := has_permission_delete_admin hp
      cases hfind : c.employees.find? (fun e => e.id == employee_id) with
      | none =>
        have heq : delete_employee c employee_id = .error .notFoundError := by
          simp [delete_employee, read_employee, has_permission,
            hp, hu, hrole, hfind]
        simp only [applyOp, heq]
        exact ⟨hinv, evolves_refl _⟩
      | some emp =>
        obtain ⟨pre, post, heqL, hpre, hemp⟩ := find?_decomp hfind
        have hrem : removeFirst c.employees employee_id = pre ++ post := by
          rw [heqL]; exact removeFirst_append hpre hemp
        have heq : delete_employee c employee_id =
            .ok (Ctrl.mk c.current_user
                   (removeFirst c.employees employee_id), true) := by
          simp [delete_employee, read_employee, has_permission,
            hp, hu, hrole, hfind]
        simp only [applyOp, heq]
        refine ⟨?_, ?_⟩
        · show storeInv (removeFirst c.employees employee_id) = true
          rw [hrem]
          exact storeInv_remove (heqL ▸ hinv)
        · show Evolves c.employees (removeFirst c.employees employee_id)
          rw [hrem, heqL]
          exact evolves_remove emp pre post
  | approveByManager employee_id =>
    cases hcu : c.current_user with
    | none =>
      have heq : approve_employee_by_manager c employee_id =
          .error .authorizationError := by
        simp [approve_employee_by_manager, hcu]
      simp only [applyOp, heq]
      exact ⟨hinv, evolves_refl _⟩
    | some u =>
      cases hrole : (u.role != "manager") with
      | true =>
        have heq : approve_employee_by_manager c employee_id =
            .error .authorizationError := by
          simp only [approve_employee_by_manager, hcu, hrole, if_true]
        simp only [applyOp, heq]
        exact ⟨hinv, evolves_refl _⟩
      | false =>
        have hroleEq : u.role = "manager" := bne_eq_false_iff_eq.mp hrole
        cases hfind : c.employees.find? (fun e => e.id == employee_id) with
        | none =>
          have heq : approve_employee_by_manager c employee_id =
              .error .notFoundError := by
            simp [approve_employee_by_manager, read_employee, has_permission,
              hcu, hroleEq, hfind]
          simp only [applyOp, heq]
          exact ⟨hinv, evolves_refl _⟩
        | some emp =>
          cases hst : (emp.status != "pending") with
          | true =>
            have heq : approve_employee_by_manager c employee_id =
                .error .invalidStateError := by
              simp [approve_employee_by_manager, read_employee, has_permission,
                hcu, hroleEq, hfind, hst]
            simp only [applyOp, heq]
            exact ⟨hinv, evolves_refl _⟩
          | false =>
            have hstEq : emp.status = "pending" := bne_eq_false_iff_eq.mp hst
            obtain ⟨pre, post, heqL, hpre, hemp⟩ := find?_decomp hfind
            have hupd : updateFirst c.employees employee_id
                (managerApprove u.username) =
                pre ++ managerApprove u.username emp :: post := by
              rw [heqL]; exact updateFirst_append _ hpre hemp
            have heq : approve_employee_by_manager c employee_id =
                .ok (Ctrl.mk c.current_user
                       (updateFirst c.employees employee_id
                         (managerApprove u.username)),
                     managerApprove u.username emp) := by
              simp [approve_employee_by_manager, read_employee, has_permission,
                hcu, hroleEq, hfind, hstEq]
            simp only [applyOp, heq]
            refine ⟨?_, ?_⟩
            · show storeInv (updateFirst c.employees employee_id
                (managerApprove u.username)) = true
              rw [hupd]
              exact storeInv_middle (heqL ▸ hinv)
                (recordInv_managerApprove u.username
                  (recordInv_middle (heqL ▸ hinv)) hstEq)
            · show Evolves c.employees (updateFirst c.employees employee_id
                (managerApprove u.username))
              rw [hupd, heqL]
              exact evolves_middle (Or.inr (Or.inl ⟨hstEq, rfl⟩)) pre post
  | approveByAdmin employee_id =>
    cases hcu : c.current_user with
    | none =>
      have heq : approve_employee_by_admin c employee_id =
          .error .authorizationError := by
        simp [approve_employee_by_admin, hcu]
      simp only [applyOp, heq]
      exact ⟨hinv, evolves_refl _⟩
    | some u =>
      cases hrole : (u.role != "admin") with
      | true =>
        have heq : approve_employee_by_admin c employee_id =
            .error .authorizationError := by
          simp only [approve_employee_by_admin, hcu, hrole, if_true]
        simp only [applyOp, heq]
        exact ⟨hinv, evolves_refl _⟩
      | false =>
        have hroleEq : u.role = "admin" := bne_eq_false_iff_eq.mp hrole
        cases hfind : c.employees.find? (fun e => e.id == employee_id) with
        | none =>
          have heq : approve_employee_by_admin c employee_id =
              .error .notFoundError := by
            simp [approve_employee_by_admin, read_employee, has_permission,
              hcu, hroleEq, hfind]
          simp only [applyOp, heq]
          exact ⟨hinv, evolves_refl _⟩
        | some emp =>
          cases hst : (emp.status != "manager_approved") with
          | true =>
            have heq : approve_employee_by_admin c employee_id =
                .error .invalidStateError := by
              simp [approve_employee_by_admin, read_employee, has_permission,
                hcu, hroleEq, hfind, hst]
            simp only [applyOp, heq]
            exact ⟨hinv, evolves_refl _⟩
          | false =>
            have hstEq : emp.status = "manager_approved" :=
              bne_eq_false_iff_eq.mp hst
            obtain ⟨pre, post, heqL, hpre, hemp⟩ := find?_decomp hfind
            have hupd : updateFirst c.employees employee_id
                (adminApprove u.username) =
                pre ++ adminApprove u.username emp :: post := by
              rw [heqL]; exact updateFirst_append _ hpre hemp
            have heq : approve_employee_by_admin c employee_id =
                .ok (Ctrl.mk c.current_user
                       (updateFirst c.employees employee_id
                         (adminApprove u.username)),
                     adminApprove u.username emp) := by
              simp [approve_employee_by_admin, read_employee, has_permission,
                hcu, hroleEq, hfind, hstEq]
            simp only [applyOp, heq]
            refine ⟨?_, ?_⟩
            · show storeInv (updateFirst c.employees employee_id
                (adminApprove u.username)) = true
              rw [hupd]
              exact storeInv_middle (heqL ▸ hinv)
                (recordInv_adminApprove emp u.username)
            · show Evolves c.employees (updateFirst c.employees employee_id
                (adminApprove u.username))
              rw [hupd, heqL]
              exact evolves_middle (Or.inr (Or.inr ⟨hstEq, rfl⟩)) pre post

theorem C4_facade_preserves_invariant_witness :
    storeInv (Ctrl.mk (some managerUser) [johnPending]).employees = true ∧
    storeInv (applyOp (Ctrl.mk (some managerUser) [johnPending])
        (Op.approveByManager "1")).employees = true ∧
    Evolves (Ctrl.mk (some managerUser) [johnPending]).employees
      (applyOp (Ctrl.mk (some managerUser) [johnPending])
        (Op.approveByManager "1")).employees := by
  have h := C4_facade_preserves_invariant
    (Ctrl.mk (some managerUser) [johnPending]) (Op.approveByManager "1")
    (by decide)
  exact ⟨by decide, h.1, h.2⟩
